import Mathlib

/-!
A verification development for the `web` HTTP router core.

This file is a shallow embedding, in Lean 4, of the request-routing core of
the `web` Go package: the path-pattern compiler (`getParams` / `getRegex`),
the route table and matcher (`Route.matchRoute`), the dispatch loop
(`Core.nextRoute`), the context lifecycle (`assignCtx` / `releaseCtx` /
`Ctx.Next` / `Ctx.Params` / `Ctx.Send` / `Ctx.Write` / `Ctx.SendStatus`) and
the reflection-driven route-name transform (`toNamer` / `fixURI` /
`buildHands`).

Conventions of the embedding:
* Go strings are Lean `String`s; the algorithms work on `String.data`
  (`List Char`).  All paths and method names in scope are ASCII, so the
  ASCII fragment of `strings.ToLower` is used.
* Go slices become Lean lists.  A `nil` slice and an empty slice are both
  `[]`; every place where the Go code distinguishes them is noted.
* A Go runtime panic (nil-pointer dereference, index out of range) is
  modelled as `Option.none` of an `Option`-returning function.
* The compiled regular expression of a route is represented by the small
  AST `RElem` below: the compiler in the source emits only the fragments
  `^`, `/literal`, `(?:/([^/]+?))?`, `/(?:([^/]+?))`, `/(.*)` and `/?$`,
  and the matcher `mElems` implements exactly the leftmost-first
  (Perl-style) semantics that Go's `regexp` package guarantees for these
  fragments, captures included.  A literal segment is spliced into the
  pattern verbatim, so regex metacharacters inside it act as operators:
  the matcher parses a spliced literal as Go's `regexp` reads it —
  single-character atoms (a plain character or `.`) with the greedy
  quantifiers `+`, `*`, `?` — which covers every literal fragment a
  theorem below evaluates; the general theorems restrict literal
  segments to metacharacter-free text (`plainChar`), on which this
  coincides with verbatim matching, and the pattern-string level
  (`getRegexPattern`, group counting) is exact for all paths.
-/

namespace Web

/-! ## ASCII character helpers (fragments of Go `strings`) -/

/-- ASCII fragment of `strings.ToLower`, one character. -/
def goToLowerChar (c : Char) : Char :=
  if 'A' ≤ c ∧ c ≤ 'Z' then Char.ofNat (c.toNat + 32) else c

/-- ASCII fragment of `strings.ToUpper`, one character. -/
def goToUpperChar (c : Char) : Char :=
  if 'a' ≤ c ∧ c ≤ 'z' then Char.ofNat (c.toNat - 32) else c

/-- `'A' ≤ c ≤ 'Z'`, the test `value[i] >= 'A' && value[i] <= 'Z'` of `toNamer`. -/
def isUpperChar (c : Char) : Bool := 'A' ≤ c && c ≤ 'Z'

/-- `'0' ≤ c ≤ '9'`, the test `value[i] >= '0' && value[i] <= '9'` of `toNamer`. -/
def isDigitChar (c : Char) : Bool := '0' ≤ c && c ≤ '9'

/-- `strings.ToLower` (ASCII fragment). -/
def goToLower (s : String) : String := String.mk (s.data.map goToLowerChar)

/-- `strings.Split(s, sep)` for a one-character separator: split at every
occurrence, keeping empty fields (Go semantics: `Split("", "/") = [""]`,
`Split("/a", "/") = ["", "a"]`). -/
def splitOnChar (sep : Char) : List Char → List (List Char)
  | [] => [[]]
  | c :: cs =>
    if c = sep then [] :: splitOnChar sep cs
    else
      match splitOnChar sep cs with
      | s :: rest => (c :: s) :: rest
      | [] => [[c]]

/-- `strings.TrimRight(s, "/")`: drop every trailing occurrence of `c`. -/
def trimTrailing (c : Char) (l : List Char) : List Char :=
  (l.reverse.dropWhile (· == c)).reverse

/-- `strings.TrimLeft(s, cutset)`: drop leading characters that belong to
the cutset. -/
def goTrimLeft (s cutset : String) : String :=
  String.mk (s.data.dropWhile (fun c => cutset.data.contains c))

/-- `strings.HasPrefix(s, pre)`. -/
def hasPrefixGo (s pre : String) : Bool := pre.data.isPrefixOf s.data

/-! ## `strings.Replacer`

`strings.NewReplacer(old1, new1, ...)` replaces left to right without
overlapping; at each position the first (in argument order) pattern that is
a prefix of the remaining input wins.  All patterns used by the source are
non-empty, so each replacement consumes at least one character; the `Nat`
argument is the usual structural-termination fuel, initialised to the input
length (an upper bound on the number of steps). -/

def goReplaceF (reps : List (String × String)) : Nat → List Char → List Char
  | 0, l => l
  | _ + 1, [] => []
  | fuel + 1, c :: cs =>
    match reps.find? (fun r => r.1.data.isPrefixOf (c :: cs)) with
    | some r => r.2.data ++ goReplaceF reps fuel ((c :: cs).drop r.1.data.length)
    | none => c :: goReplaceF reps fuel cs

/-- `Replacer.Replace`. -/
def goReplace (reps : List (String × String)) (l : List Char) : List Char :=
  goReplaceF reps l.length l

/-! ## The auto-registration name transform (`utils.go`: `toNamer`, `fixURI`)

`toNamer` first expands common initialisms to title case, then walks the
name inserting `/` at lower→upper case boundaries, lower-cases the result
and substitutes the reserved tokens `_`, `params`, `param`.  The global
`smap` cache written by the source is a write-only memo here and is not
modelled. -/

def commonInitialisms : List String :=
  ["API", "ASCII", "CPU", "CSS", "DNS", "EOF", "GUID", "HTML", "HTTP",
   "HTTPS", "ID", "IP", "JSON", "LHS", "QPS", "RAM", "RHS", "RPC", "SLA",
   "SMTP", "SSH", "TLS", "TTL", "UID", "UI", "UUID", "URI", "URL", "UTF8",
   "VM", "XML", "XSRF", "XSS"]

/-- `strings.Title(strings.ToLower(x))` for a single alphanumeric token:
lower-case everything, then upper-case the first character. -/
def titleLower (l : List Char) : List Char :=
  match l.map goToLowerChar with
  | [] => []
  | c :: cs => goToUpperChar c :: cs

/-- The argument list of `commonInitialismsReplacer` built in `init()`. -/
def initialismPairs : List (String × String) :=
  commonInitialisms.map (fun s => (s, String.mk (titleLower s.data)))

/-- The final substitution list `reps` of `toNamer`:
`_` ↦ `/:`, `params` ↦ `:param?`, `param` ↦ `:param`. -/
def namerReps : List (String × String) :=
  [("_", "/:"), ("params", ":param?"), ("param", ":param")]

/-- The mutable state of `toNamer`'s character loop: the output buffer and
the `lastCase` / `currCase` flags (`upper = true`). -/
structure NState where
  buf : List Char
  lastCase : Bool
  currCase : Bool

/-- One iteration of `toNamer`'s loop over `value[:len(value)-1]`
(`v = value[i]`, the names `nextCase` / `nextNumber` as in the source;
the returned state already performs the trailing
`lastCase = currCase; currCase = nextCase` assignments). -/
def toNamerStep (value : List Char) (n : Nat) (st : NState) (i : Nat) : NState :=
  let v := value.getD i ' '
  let nextCase := isUpperChar (value.getD (i + 1) ' ')
  let nextNumber := isDigitChar (value.getD (i + 1) ' ')
  if i > 0 then
    if st.currCase then
      if st.lastCase && (nextCase || nextNumber) then
        ⟨st.buf ++ [v], st.currCase, nextCase⟩
      else
        let buf :=
          if value.getD (i - 1) ' ' != '/' && value.getD (i + 1) ' ' != '/' then
            st.buf ++ ['/', v]
          else st.buf ++ [v]
        ⟨buf, st.currCase, nextCase⟩
    else
      let buf := st.buf ++ [v]
      let buf := if i == n - 2 && (nextCase && !nextNumber) then buf ++ ['/'] else buf
      ⟨buf, st.currCase, nextCase⟩
  else
    -- i = 0: `currCase = upper` is assigned before the write, so the
    -- trailing `lastCase = currCase` stores `upper`.
    ⟨st.buf ++ [v], true, nextCase⟩

/-- `toNamer` (`utils.go`). -/
def toNamer (name : String) : String :=
  if name = "" then ""
  else
    let value := goReplace initialismPairs name.data
    let n := value.length
    let st := (List.range (n - 1)).foldl (toNamerStep value n) ⟨[], false, false⟩
    let buf := st.buf ++ [value.getD (n - 1) ' ']
    String.mk (goReplace namerReps (buf.map goToLowerChar))

/-! ## `path.Join` / `path.Clean` (Go standard library collaborators)

`fixURI` calls `path.Join`, which joins with `/` and then applies the
lexical cleaner `path.Clean`.  `Clean` is embedded in its standard
segment-stack formulation: empty and `.` segments are dropped, `..` pops a
segment (never popping past the root of a rooted path, and accumulating at
the front of a relative one), and the remaining segments are re-joined. -/

def cleanStack (rooted : Bool) : List (List Char) → List (List Char) → List (List Char)
  | stack, [] => stack
  | stack, seg :: rest =>
    if seg = [] ∨ seg = ['.'] then cleanStack rooted stack rest
    else if seg = ['.', '.'] then
      match stack with
      | [] => if rooted then cleanStack rooted [] rest
              else cleanStack rooted [['.', '.']] rest
      | top :: s' =>
        if !rooted && top = ['.', '.'] then cleanStack rooted (seg :: top :: s') rest
        else cleanStack rooted s' rest
    else cleanStack rooted (seg :: stack) rest

/-- `path.Clean`. -/
def pathClean (p : String) : String :=
  if p = "" then "."
  else
    let rooted := p.data.headD ' ' == '/'
    let stack := (cleanStack rooted [] (splitOnChar '/' p.data)).reverse
    let body := List.intercalate ['/'] stack
    if rooted then String.mk ('/' :: body)
    else if body = [] then "." else String.mk body

/-- `path.Join(a, b)`: Go joins from the first non-empty element and cleans;
with two elements this is the following case split. -/
def goPathJoin (a b : String) : String :=
  if a ≠ "" then pathClean (a ++ "/" ++ b)
  else if b ≠ "" then pathClean b
  else ""

/-- `fixURI` (`utils.go`). -/
def fixURI (pre src tag : String) : String :=
  let uri := goPathJoin pre (goTrimLeft src tag)
  if uri.length = 0 then "/" else uri

/-- The verb dispatch of `buildHands` (`core.go`): transform a Go method
name with `toNamer`, classify it by its leading verb token (in the order of
the source's `switch`), and derive the registered `(HTTP method, path)`
pair with `fixURI`.  Names that start with no recognised verb register
nothing (`none`). -/
def buildHandRoute (pre methodName : String) : Option (String × String) :=
  let name := toNamer methodName
  if hasPrefixGo name "get" then some ("GET", fixURI pre name "get")
  else if hasPrefixGo name "post" then some ("POST", fixURI pre name "post")
  else if hasPrefixGo name "put" then some ("PUT", fixURI pre name "put")
  else if hasPrefixGo name "delete" then some ("DELETE", fixURI pre name "delete")
  else if hasPrefixGo name "patch" then some ("PATCH", fixURI pre name "patch")
  else if hasPrefixGo name "head" then some ("HEAD", fixURI pre name "head")
  else if hasPrefixGo name "all" then some ("ALL", fixURI pre name "all")
  else none

/-! ## The path-pattern compiler (`utils.go`: `getParams`, `getRegex`)

`getRegex` emits, per non-empty path segment, one of four regex fragments;
`RElem` is that fragment list.  `renderElem` reproduces the exact pattern
string the source builds (a literal segment is emitted verbatim with its
leading `/`). -/

inductive RElem where
  /-- a literal fragment `/segment`, stored with its leading `/` -/
  | lit (l : List Char)
  /-- `(?:/([^/]+?))?` — optional named parameter -/
  | opt
  /-- `/(?:([^/]+?))` — required named parameter -/
  | req
  /-- `/(.*)` — wildcard -/
  | wild
deriving DecidableEq, Repr

/-- The pattern text of one `RElem`, exactly as `getRegex` appends it. -/
def renderElem : RElem → List Char
  | .lit l => l
  | .opt => ['(', '?', ':', '/', '(', '[', '^', '/', ']', '+', '?', ')', ')', '?']
  | .req => ['/', '(', '?', ':', '(', '[', '^', '/', ']', '+', '?', ')', ')']
  | .wild => ['/', '(', '.', '*', ')']

/-- The parameter names contributed by one segment of `getParams`'s loop:
a segment starting with `:` contributes its name with every `:` and `?`
removed (the `strings.NewReplacer(":", "", "?", "")` of the source), and
— in a separate `if`, not an `else` — any segment containing `*`
additionally contributes the literal name `"*"`. -/
def paramsOfSeg : List Char → List String
  | [] => []
  | c :: cs =>
    (if c = ':' then
       [String.mk ((c :: cs).filter (fun x => x != ':' && x != '?'))]
     else []) ++
    (if (c :: cs).contains '*' then [String.mk ['*']] else [])

/-- `getParams` (`utils.go`). -/
def getParams (path : String) : List String :=
  if path.length < 1 then []
  else ((splitOnChar '/' path.data).map paramsOfSeg).flatten

/-- The regex fragments contributed by one segment of `getRegex`'s loop. -/
def regexElemOfSeg : List Char → List RElem
  | [] => []
  | c :: cs =>
    if c = ':' then (if (c :: cs).contains '?' then [RElem.opt] else [RElem.req])
    else if c = '*' then [RElem.wild]
    else [RElem.lit ('/' :: c :: cs)]

/-- The fragment list `getRegex` compiles for a path. -/
def getRegexElems (path : String) : List RElem :=
  ((splitOnChar '/' path.data).map regexElemOfSeg).flatten

/-- The exact pattern string `getRegex` hands to `regexp.Compile`:
`"^"`, the per-segment fragments, `"/?$"`. -/
def getRegexPattern (path : String) : String :=
  String.mk ('^' :: ((getRegexElems path).map renderElem).flatten ++ ['/', '?', '$'])

/-- The number of capturing groups of a regex pattern: occurrences of `(`
not followed by `?` (Go's `regexp` numbering of submatches). -/
def countCaptureGroups : List Char → Nat
  | [] => 0
  | c :: rest =>
    if c = '(' then
      (match rest with
       | [] => 1
       | c2 :: _ => if c2 = '?' then 0 else 1) + countCaptureGroups rest
    else countCaptureGroups rest

/-! ## The matcher for compiled patterns

Go's `regexp` guarantees Perl-style leftmost-first match and submatch
semantics.  On the anchored patterns `getRegex` builds, that is: fragments
are tried in order; `[^/]+?` is lazy (shortest first); `.*` is greedy
(longest first); the optional group is greedy (the group is attempted
before the empty alternative, and yields the empty capture when skipped,
exactly as `FindStringSubmatch` reports an unparticipating group); the
trailing `/?$` accepts exactly a remaining `""` or `"/"`.

A literal segment is spliced into the pattern verbatim, so regex
metacharacters inside it act as operators when Go compiles the pattern.
The matcher therefore parses a spliced literal the way Go's `regexp`
reads it: a sequence of single-character atoms — a plain character, or
`.` matching any character — each optionally followed by one of the
greedy quantifiers `+`, `*`, `?`.  That covers every literal fragment a
theorem below evaluates; richer syntax inside a literal segment
(character classes, groups, alternation, lazy quantifiers, escapes)
is outside the model, and the general theorems restrict literal segments
to metacharacter-free text (`plainChar`), on which atom-by-atom matching
is verbatim matching.

`mElems elems s` returns `none` when the anchored pattern does not match
`s`, and `some caps` — one capture per group, in order — when it does. -/

/-- An atom of a spliced literal fragment: a single character, or `.`
(which in Go matches any character except newline; paths contain no
newlines). -/
inductive LAtom where
  | ch (c : Char)
  | dot
deriving DecidableEq, Repr

/-- The quantifier attached to one atom of a spliced literal. -/
inductive LQuant where
  | once
  | plus
  | star
  | qmark
deriving DecidableEq, Repr

/-- One parsed piece of a spliced literal: an atom and its quantifier. -/
structure LPiece where
  atom : LAtom
  q : LQuant
deriving DecidableEq, Repr

/-- Characters with no special meaning in a Go regular expression; a
spliced literal made of these matches exactly itself. -/
def plainChar (c : Char) : Bool :=
  !(c == '.' || c == '+' || c == '*' || c == '?' || c == '(' || c == ')' ||
    c == '[' || c == ']' || c == '{' || c == '}' || c == '|' || c == '\\' ||
    c == '^' || c == '$')

/-- Parse a spliced literal fragment into quantified atoms, exactly as
Go's `regexp` reads it: `x+` one-or-more, `x*` zero-or-more, `x?`
zero-or-one (all greedy), `.` any character. -/
def parseLit : List Char → List LPiece
  | [] => []
  | [c] => [⟨if c = '.' then LAtom.dot else LAtom.ch c, LQuant.once⟩]
  | c :: q :: cs' =>
    let atom := if c = '.' then LAtom.dot else LAtom.ch c
    if q = '+' then ⟨atom, LQuant.plus⟩ :: parseLit cs'
    else if q = '*' then ⟨atom, LQuant.star⟩ :: parseLit cs'
    else if q = '?' then ⟨atom, LQuant.qmark⟩ :: parseLit cs'
    else ⟨atom, LQuant.once⟩ :: parseLit (q :: cs')

/-- Whether one atom accepts one character. -/
def atomMatches : LAtom → Char → Bool
  | .ch c, x => x == c
  | .dot, _ => true

/-- Greedy repetition search: try `n` repetitions first (the caller passes
the length of the maximal run the atom can consume), backing off one at a
time, never below `lo`, and hand the remainder to the continuation `k`. -/
def tryFrom (k : List Char → Option (List (List Char))) (s : List Char)
    (lo : Nat) : Nat → Option (List (List Char))
  | 0 => if lo = 0 then k s else none
  | n + 1 =>
    if n + 1 < lo then none
    else
      match k (s.drop (n + 1)) with
      | some caps => some caps
      | none => tryFrom k s lo n

/-- Match a parsed literal fragment against the input with Go's greedy
quantifier semantics, backtracking into the continuation `k`. -/
def matchPieces (k : List Char → Option (List (List Char))) :
    List LPiece → List Char → Option (List (List Char))
  | [], s => k s
  | ⟨a, LQuant.once⟩ :: ps, s =>
    match s with
    | x :: s' => if atomMatches a x then matchPieces k ps s' else none
    | [] => none
  | ⟨a, LQuant.plus⟩ :: ps, s =>
    let run := (s.takeWhile (atomMatches a)).length
    if run = 0 then none else tryFrom (matchPieces k ps) s 1 run
  | ⟨a, LQuant.star⟩ :: ps, s =>
    let run := (s.takeWhile (atomMatches a)).length
    tryFrom (matchPieces k ps) s 0 run
  | ⟨a, LQuant.qmark⟩ :: ps, s =>
    match s with
    | x :: s' =>
      if atomMatches a x then
        match matchPieces k ps s' with
        | some caps => some caps
        | none => matchPieces k ps s
      else matchPieces k ps s
    | [] => matchPieces k ps []

/-- Lazy search for `([^/]+?)` followed by the continuation `k`: try one
more non-`/` character at a time (shortest match first), prepending the
capture to the continuation's captures.  `acc` is the text consumed so
far. -/
def firstLazy (k : List Char → Option (List (List Char))) :
    List Char → List Char → Option (List (List Char))
  | _, [] => none
  | acc, c :: s =>
    if c = '/' then none
    else
      match k s with
      | some caps => some ((acc ++ [c]) :: caps)
      | none => firstLazy k (acc ++ [c]) s

/-- Greedy search for `(.*)` followed by the continuation `k`: try the
longest capture first (`n` counts down from `s.length`). -/
def tryGreedy (k : List Char → Option (List (List Char))) (s : List Char) :
    Nat → Option (List (List Char))
  | 0 =>
    match k s with
    | some caps => some ([] :: caps)
    | none => none
  | n + 1 =>
    match k (s.drop (n + 1)) with
    | some caps => some (s.take (n + 1) :: caps)
    | none => tryGreedy k s n

/-- Match a fragment list against the remainder of the request path (the
pattern is anchored: `^` at the start, `/?$` at the end). -/
def mElems : List RElem → List Char → Option (List (List Char))
  | [], s => if s = [] ∨ s = ['/'] then some [] else none
  | .lit l :: rest, s => matchPieces (mElems rest) (parseLit l) s
  | .req :: rest, s =>
    match s with
    | '/' :: s' => firstLazy (mElems rest) [] s'
    | _ => none
  | .opt :: rest, s =>
    match (match s with
           | '/' :: s' => firstLazy (mElems rest) [] s'
           | _ => none) with
    | some caps => some caps
    | none => (mElems rest s).map (fun caps => [] :: caps)
  | .wild :: rest, s =>
    match s with
    | '/' :: s' => tryGreedy (mElems rest) s' s'.length
    | _ => none

/-! ## Routes (`router.go` `Route`, `core.go` `pushMethod`) -/

/-- The data of one registered route (the `Route` struct minus its handler
function, which lives in `Route` below so that contexts can store the
matched route's data without a cyclic type). -/
structure RouteData where
  isGet : Bool
  isMiddleware : Bool
  isStar : Bool
  isSlash : Bool
  isRegex : Bool
  Method : String
  Path : String
  Params : List String
  /-- the compiled `Regexp` of the source, as a fragment list -/
  Pattern : List RElem
deriving DecidableEq, Repr

/-- `pushMethod` (`core.go`): normalise the path, derive the flags, extract
the parameter names from the original (pre-lower-casing) path and compile
the pattern when parameters exist.  `regexp.Compile` failure is a fatal
configuration error in the source and cannot occur for the patterns in
scope, so compilation is total here. -/
def pushRoute (method path : String) : RouteData :=
  let path := if path = "" then "/" else path
  let path := if path.data.headD ' ' == '/' then path else String.mk ('/' :: path.data)
  let original := path
  let path := goToLower path
  let path := if path.length > 1 then String.mk (trimTrailing '/' path.data) else path
  let isGet := method == "GET"
  let isMiddleware := method == "USE"
  let method := if isMiddleware || method == "ALL" then "*" else method
  let isStar := (path == "*" || path == "/*") || (isMiddleware && path == "/")
  let isSlash := path == "/"
  let params := getParams original
  let isRegex := params != []
  { isGet := isGet, isMiddleware := isMiddleware, isStar := isStar,
    isSlash := isSlash, isRegex := isRegex, Method := method, Path := path,
    Params := params,
    Pattern := if params != [] then getRegexElems path else [] }

/-- `Route.matchRoute` (`router.go`).  `r.Regexp.MatchString(path)` and the
subsequent `FindAllStringSubmatch(path, -1)` are both answered by
`mElems r.Pattern path.data`: the pattern is anchored, so there is at most
one match, and `matches[0]` lists the whole match followed by one entry per
capturing group (`""` for an unparticipating optional group) — hence
`len(matches[0]) > 1` is `caps ≠ []`, and `matches[0][1:]` is `caps`. -/
def matchRoute (r : RouteData) (method path : String) : Bool × List String :=
  if r.isMiddleware then
    if r.isStar || r.isSlash then (true, [])
    else if hasPrefixGo path r.Path then (true, [])
    else (false, [])
  else if r.Method == method || r.Method.data.headD ' ' == '*'
      || (r.isGet && method.length == 4 && method == "HEAD") then
    if r.isStar then (true, [])
    else if r.isSlash && path == "/" then (true, [])
    else if r.isRegex && (mElems r.Pattern path.data).isSome then
      if r.Params.length > 0 then
        match mElems r.Pattern path.data with
        | some caps =>
          if caps.length > 0 then (true, caps.map String.mk) else (false, [])
        | none => (false, [])
      else (true, [])
    else if r.Path.length == path.length && r.Path == path then (true, [])
    else (false, [])
  else (false, [])

/-! ## The request context (`ctx.go`) and the response state

The response status code and body live in the `fasthttp.RequestCtx` the
server hands to `assignCtx`; here they are inlined into `Ctx`, and
`reqHandle` models the `*fasthttp.RequestCtx` pointer itself (its identity
is all the lifecycle claims are about). -/

/-- The per-request transport handle (the parts of `*fasthttp.RequestCtx`
the core reads on acquisition, plus an identity). -/
structure Req where
  method : String
  path : String
  id : Nat
deriving DecidableEq, Repr

structure Ctx where
  /-- the dispatch cursor, `-1` on acquisition -/
  index : Int
  method : String
  path : String
  /-- the matched route (`nil` when none) -/
  Route : Option RouteData
  /-- the extracted parameter values of the current match -/
  values : List String
  err : Option String
  /-- the `*fasthttp.RequestCtx` reference (`none` = nil) -/
  reqHandle : Option Nat
  /-- `Response.StatusCode()` (fasthttp default 200) -/
  status : Nat
  /-- `Response.Body()` as text -/
  body : String
deriving DecidableEq, Repr

/-- The HTTP status texts (`statusMessages`, `utils.go`); a missing key
yields the map's zero value `""`. -/
def statusMessages : Nat → String
  | 100 => "Continue"
  | 101 => "Switching Protocols"
  | 102 => "Processing"
  | 103 => "Early Hints"
  | 200 => "OK"
  | 201 => "Created"
  | 202 => "Accepted"
  | 203 => "Non-Authoritative Information"
  | 204 => "No Content"
  | 205 => "Reset Content"
  | 206 => "Partial Content"
  | 207 => "Multi-Status"
  | 208 => "Already Reported"
  | 226 => "IM Used"
  | 300 => "Multiple Choices"
  | 301 => "Moved Permanently"
  | 302 => "Found"
  | 303 => "See Other"
  | 304 => "Not Modified"
  | 305 => "Use Proxy"
  | 306 => "Switch Proxy"
  | 307 => "Temporary Redirect"
  | 308 => "Permanent Redirect"
  | 400 => "Bad Request"
  | 401 => "Unauthorized"
  | 402 => "Payment Required"
  | 403 => "Forbidden"
  | 404 => "Not Found"
  | 405 => "Method Not Allowed"
  | 406 => "Not Acceptable"
  | 407 => "Proxy Authentication Required"
  | 408 => "Request Timeout"
  | 409 => "Conflict"
  | 410 => "Gone"
  | 411 => "Length Required"
  | 412 => "Precondition Failed"
  | 413 => "Request Entity Too Large"
  | 414 => "Request URI Too Long"
  | 415 => "Unsupported Media Type"
  | 416 => "Requested Range Not Satisfiable"
  | 417 => "Expectation Failed"
  | 418 => "I'm a teapot"
  | 421 => "Misdirected Request"
  | 422 => "Unprocessable Entity"
  | 423 => "Locked"
  | 424 => "Failed Dependency"
  | 426 => "Upgrade Required"
  | 428 => "Precondition Required"
  | 429 => "Too Many Requests"
  | 431 => "Request Header Fields Too Large"
  | 451 => "Unavailable For Legal Reasons"
  | 500 => "Internal Server Error"
  | 501 => "Not Implemented"
  | 502 => "Bad Gateway"
  | 503 => "Service Unavailable"
  | 504 => "Gateway Timeout"
  | 505 => "HTTP Version Not Supported"
  | 506 => "Variant Also Negotiates"
  | 507 => "Insufficient Storage"
  | 508 => "Loop Detected"
  | 510 => "Not Extended"
  | 511 => "Network Authentication Required"
  | _ => ""

/-- `Ctx.SendStatus`: set the status code, and fill the body with the
status text only when the body is still empty. -/
def CtxSendStatus (c : Ctx) (code : Nat) : Ctx :=
  let c := { c with status := code }
  if c.body = "" then { c with body := statusMessages code } else c

/-- A value passed to `Ctx.Send` / `Ctx.Write` (`interface{}` in the
source): a `string`, a `[]byte`, or any other value together with its
`fmt.Sprintf("%v", ·)` rendering. -/
inductive BodyArg where
  | str (s : String)
  | bytes (s : String)
  | other (rendered : String)
deriving DecidableEq, Repr

/-- The text `Ctx.Write` appends for one argument. -/
def renderArg : BodyArg → String
  | .str s => s
  | .bytes s => s
  | .other r => r

/-- `Ctx.Write`: append every argument to the response body. -/
def CtxWrite (c : Ctx) (args : List BodyArg) : Ctx :=
  args.foldl (fun c a => { c with body := c.body ++ renderArg a }) c

/-- `Ctx.Send`: clear the body when at least one argument is given, then
`Write` the arguments. -/
def CtxSend (c : Ctx) (args : List BodyArg) : Ctx :=
  let c := if args.length > 0 then { c with body := "" } else c
  CtxWrite c args

/-- `Ctx.Params`: linear scan of the matched route's parameter names; on
the first hit return `c.values[i]`.  `none` models the index-out-of-range
panic raised when the hit position lies beyond `c.values` (`List.get?`
returns the value otherwise).  The scan falling through — `Params` is
`nil`/empty or does not contain the key — returns the zero value `""`. -/
def paramsLoop (params : List String) (values : List String) (vi : Nat)
    (k : String) : Option String :=
  match params with
  | [] => some ""
  | p :: ps => if p = k then values.get? vi else paramsLoop ps values (vi + 1) k

/-- `Ctx.Params` (`ctx.go`).  A context without a matched route would
dereference the nil `c.Route` pointer (`none`). -/
def CtxParams (c : Ctx) (k : String) : Option String :=
  match c.Route with
  | none => none
  | some rd => paramsLoop rd.Params c.values 0 k

/-! ## Handlers and the dispatch loop (`core.go`: `handler`, `nextRoute`)

A handler is user code `func(*Ctx)`.  The handlers in scope perform a
sequence of response-writing effects and then either return, call
`ctx.Next()` (chain continuation), or call `ctx.Next(err)`; that space is
deep-embedded so the dispatch loop stays a total function. -/

/-- One response-writing step of a handler body. -/
inductive Eff where
  | send (s : String)
  | write (s : String)
  | sendStatus (n : Nat)
deriving DecidableEq, Repr

/-- How a handler body ends. -/
inductive Tail where
  /-- plain return: the route terminates the request -/
  | stop
  /-- `ctx.Next()` -/
  | next
  /-- `ctx.Next(err)` -/
  | nextErr (e : String)
deriving DecidableEq, Repr

structure Handler where
  effs : List Eff
  tail : Tail
deriving DecidableEq, Repr

/-- A registered route: its data plus its handler. -/
structure Route where
  data : RouteData
  handler : Handler

def applyEff (c : Ctx) : Eff → Ctx
  | .send s => CtxSend c [.str s]
  | .write s => CtxWrite c [.str s]
  | .sendStatus n => CtxSendStatus c n

def applyEffs (effs : List Eff) (c : Ctx) : Ctx := effs.foldl applyEff c

/-- The scan loop of `nextRoute` over the routes not yet visited
(`rs = routes[ctx.index+1:]`).  Each iteration increments the cursor,
matches the route at the cursor, and on a match records the route and the
extracted values on the context and runs the handler; a handler ending in
`Next()` clears the match and resumes the scan on the remaining routes,
one ending in `Next(err)` clears the match, stores the error and halts.
When the table is exhausted and no handler wrote a body, a 404 is sent.
The returned list is the trace of cursor positions at which a handler was
invoked, in invocation order. -/
def scan : List Route → Ctx → Ctx × List Int
  | [], ctx => (if ctx.body = "" then CtxSendStatus ctx 404 else ctx, [])
  | r :: rest, ctx =>
    let i := ctx.index + 1
    let mv := matchRoute r.data ctx.method ctx.path
    if mv.1 then
      let c1 := { ctx with index := i, Route := some r.data, values := mv.2 }
      let c2 := applyEffs r.handler.effs c1
      match r.handler.tail with
      | .stop => (c2, [i])
      | .nextErr e => ({ c2 with Route := none, values := [], err := some e }, [i])
      | .next =>
        let res := scan rest { c2 with Route := none, values := [] }
        (res.1, i :: res.2)
    else scan rest { ctx with index := i }

/-- `Core.nextRoute` (`core.go`): scan the route table forward from the
context's cursor (position `ctx.index + 1` onward). -/
def nextRoute (routes : List Route) (ctx : Ctx) : Ctx × List Int :=
  scan (routes.drop ((ctx.index + 1).toNat)) ctx

/-- `Ctx.Next` (`ctx.go`): clear the matched route and values; with an
error argument store it and halt, otherwise resume `nextRoute`. -/
def CtxNext (routes : List Route) (ctx : Ctx) (err : Option String) :
    Ctx × List Int :=
  let c := { ctx with Route := none, values := [] }
  match err with
  | some e => ({ c with err := some e }, [])
  | none => nextRoute routes c

/-- `assignCtx` (`ctx.go`): bind a pooled context to a new request — reset
the cursor to `-1`, snapshot method and path, and store the transport
handle.  The response state (status, body) arrives fresh with the new
`fasthttp.RequestCtx`, which is what resetting it here models. -/
def assignCtx (c : Ctx) (r : Req) : Ctx :=
  { c with index := -1, path := r.path, method := r.method,
           reqHandle := some r.id, status := 200, body := "" }

/-- `releaseCtx` (`ctx.go`): clear the matched route, the values, the
transport-handle reference and the error before the context returns to the
pool. -/
def releaseCtx (c : Ctx) : Ctx :=
  { c with Route := none, values := [], reqHandle := none, err := none }

/-! ## Derived notions and concrete fixtures used by the theorems below -/

/-- The request-path text of a list of literal segments: each segment with
its leading `/`, concatenated. -/
def flatSegs : List (List Char) → List Char
  | [] => []
  | sg :: rest => ('/' :: sg) ++ flatSegs rest

/-- The number of capturing groups one compiled fragment contributes
(a literal fragment without `(` contributes none). -/
def groupCountElem : RElem → Nat
  | .lit _ => 0
  | _ => 1

def routesC1 : List Route :=
  [⟨pushRoute "GET" "/a", ⟨[], .stop⟩⟩,
   ⟨pushRoute "GET" "/b", ⟨[.send "first"], .stop⟩⟩,
   ⟨pushRoute "GET" "/b", ⟨[.send "second"], .stop⟩⟩]

def ctxC1 : Ctx := ⟨-1, "GET", "/b", none, [], none, none, 200, ""⟩

def routesC2 : List Route := [⟨pushRoute "GET" "/a", ⟨[.send "hi"], .stop⟩⟩]

def ctxC2 : Ctx := ⟨-1, "GET", "/zzz", none, [], none, none, 200, ""⟩

def routesC3 : List Route :=
  [⟨pushRoute "GET" "/a", ⟨[], .stop⟩⟩, ⟨pushRoute "GET" "/a", ⟨[.send "x"], .stop⟩⟩]

def ctxC3 : Ctx :=
  ⟨0, "GET", "/a", some (pushRoute "GET" "/a"), [], none, none, 200, "y"⟩

def rdC9 : RouteData := pushRoute "USE" "/x/:id"

/-- A context exactly as dispatch leaves it after the middleware route
`USE /x/:id` matched a request by string prefix: middleware matching
compares the request path against the route's literal normalized path
text `/x/:id` with `strings.HasPrefix`, so a request path such as
`/x/:id/7` (URL paths may contain `:` literally) matches, and prefix
matching extracts no values while the matched route still carries the
parameter name `id`. -/
def ctxC9 : Ctx := ⟨0, "GET", "/x/:id/7", some rdC9, [], none, none, 200, ""⟩

def rdC9w : RouteData := pushRoute "GET" "/u/:param"

def ctxC9w : Ctx := ⟨0, "GET", "/u/42", some rdC9w, ["42"], none, none, 200, ""⟩

/-! ## Lemmas about the dispatch loop -/

theorem applyEff_index (c : Ctx) (e : Eff) : (applyEff c e).index = c.index := by
  cases e <;> simp [applyEff, CtxSend, CtxWrite, CtxSendStatus] <;> split <;> rfl

theorem applyEffs_index (effs : List Eff) (c : Ctx) :
    (applyEffs effs c).index = c.index := by
  induction effs generalizing c with
  | nil => rfl
  | cons e es ih => simp [applyEffs] at ih ⊢; rw [ih, applyEff_index]

/-- If the route at position `j` of the remaining table matches and no
earlier remaining route does, the scan's first handler invocation happens
at cursor `ctx.index + 1 + j`. -/
theorem scan_first (rs : List Route) (c : Ctx) (j : Nat) (hj : j < rs.length)
    (hm : (matchRoute (rs.get ⟨j, hj⟩).data c.method c.path).1 = true)
    (hb : ∀ k, (hk : k < j) →
      (matchRoute (rs.get ⟨k, Nat.lt_trans hk hj⟩).data c.method c.path).1 = false) :
    (scan rs c).2.head? = some (c.index + 1 + j) := by
  induction rs generalizing c j with
  | nil => exact absurd hj (Nat.not_lt_zero j)
  | cons r rest ih =>
    cases j with
    | zero =>
      simp only [List.get] at hm
      simp only [scan, hm, if_true]
      cases r.handler.tail <;> simp
    | succ j' =>
      have h0 : (matchRoute r.data c.method c.path).1 = false := hb 0 (Nat.succ_pos j')
      simp only [scan, h0, Bool.false_eq_true, if_false]
      have hj' : j' < rest.length := Nat.lt_of_succ_lt_succ hj
      have := ih { c with index := c.index + 1 } j' hj' hm
        (fun k hk => hb (k + 1) (Nat.succ_lt_succ hk))
      rw [this]
      simp; push_cast; ring

/-- If no remaining route matches and the body is still empty, the scan
terminates with a 404 and the standard reason phrase as body. -/
theorem scan_404 (rs : List Route) (c : Ctx)
    (hall : ∀ r ∈ rs, (matchRoute r.data c.method c.path).1 = false)
    (hbody : c.body = "") :
    (scan rs c).1.status = 404 ∧ (scan rs c).1.body = "Not Found" := by
  induction rs generalizing c with
  | nil =>
    constructor
    · simp [scan, CtxSendStatus, hbody]
    · simp [scan, CtxSendStatus, hbody]
      decide
  | cons r rest ih =>
    have h0 : (matchRoute r.data c.method c.path).1 = false :=
      hall r (List.mem_cons_self r rest)
    simp only [scan, h0, Bool.false_eq_true, if_false]
    exact ih { c with index := c.index + 1 }
      (fun r' hr' => hall r' (List.mem_cons_of_mem r hr')) hbody

/-- Every cursor position in the scan's invocation trace is strictly past
the cursor the scan started from: an already-visited route is never matched
again. -/
theorem scan_trace_lt (rs : List Route) (c : Ctx) (i : Int) :
    i ∈ (scan rs c).2 → c.index < i := by
  induction rs generalizing c with
  | nil => intro h; simp [scan] at h
  | cons r rest ih =>
    intro h
    by_cases hm : (matchRoute r.data c.method c.path).1 = true
    · simp only [scan, hm, if_true] at h
      cases htail : r.handler.tail <;> rw [htail] at h <;> simp at h
      · omega
      · rcases h with h | h
        · omega
        · have := ih _ h
          rw [applyEffs_index] at this
          simp at this; omega
      · omega
    · simp only [Bool.not_eq_true] at hm
      simp only [scan, hm, Bool.false_eq_true, if_false] at h
      have := ih _ h
      simp at this; omega

/-- A scan that invoked no handler leaves the matched route and the values
of the context untouched. -/
theorem scan_trace_nil (rs : List Route) (c : Ctx) :
    (scan rs c).2 = [] →
    (scan rs c).1.Route = c.Route ∧ (scan rs c).1.values = c.values := by
  induction rs generalizing c with
  | nil => intro _; simp [scan, CtxSendStatus]; split <;> simp
  | cons r rest ih =>
    intro h
    by_cases hm : (matchRoute r.data c.method c.path).1 = true
    · simp only [scan, hm, if_true] at h
      cases htail : r.handler.tail <;> rw [htail] at h <;> simp at h
    · simp only [Bool.not_eq_true] at hm
      simp only [scan, hm, Bool.false_eq_true, if_false] at h ⊢
      exact ih _ h

/-! ## C1 — first match in registration order wins -/

/-- **C1.** Dispatch from a freshly acquired context (`index = -1`) invokes
the handler of the first route in registration order whose matcher accepts
the request's method and path: if route `j` matches and no earlier route
does, the first entry of the invocation trace is `j` — independent of the
table size and of any later (for example structurally identical) matching
routes, which in particular settles that of two routes with the same
method and pattern the earlier-registered one is selected. -/
theorem nextRoute_selects_first_match (routes : List Route) (ctx : Ctx)
    (j : Nat) (hj : j < routes.length)
    (hidx : ctx.index = -1)
    (hm : (matchRoute (routes.get ⟨j, hj⟩).data ctx.method ctx.path).1 = true)
    (hb : ∀ k, (hk : k < j) →
      (matchRoute (routes.get ⟨k, Nat.lt_trans hk hj⟩).data ctx.method ctx.path).1 = false) :
    (nextRoute routes ctx).2.head? = some (j : Int) := by
  unfold nextRoute
  rw [hidx]
  norm_num [List.drop_zero]
  rw [scan_first routes ctx j hj hm hb, hidx]
  simp

/-- Witness for C1: with two identical `GET /b` routes registered after a
non-matching `GET /a` route, dispatch of `GET /b` invokes the earlier of
the two (table position 1). -/
theorem nextRoute_selects_first_match_witness :
    (matchRoute (routesC1.get ⟨1, by decide⟩).data ctxC1.method ctxC1.path).1 = true ∧
    (nextRoute routesC1 ctxC1).2.head? = some 1 :=
  ⟨by decide,
   nextRoute_selects_first_match routesC1 ctxC1 1 (by decide) (by decide) (by decide)
     (fun k hk => by
       have hk0 : k = 0 := by omega
       subst hk0
       show (matchRoute (routesC1.get ⟨0, by decide⟩).data ctxC1.method ctxC1.path).1 = false
       decide)⟩

/-! ## C2 — no match and empty body is a terminal 404 "Not Found" -/

/-- **C2.** When no registered route matches the request's method and path
and no handler has written a response body, dispatch from a fresh context
terminates with status 404 and body exactly `"Not Found"`; in particular
the body is not left empty. -/
theorem nextRoute_no_match_404 (routes : List Route) (ctx : Ctx)
    (hidx : ctx.index = -1) (hbody : ctx.body = "")
    (hall : ∀ r ∈ routes, (matchRoute r.data ctx.method ctx.path).1 = false) :
    (nextRoute routes ctx).1.status = 404 ∧
    (nextRoute routes ctx).1.body = "Not Found" ∧
    (nextRoute routes ctx).1.body ≠ "" := by
  unfold nextRoute
  rw [hidx]
  norm_num [List.drop_zero]
  have h := scan_404 routes ctx hall hbody
  exact ⟨h.1, h.2, by rw [h.2]; decide⟩

/-- Witness for C2: a table whose only route is `GET /a` leaves a `GET
/zzz` request with a 404 and the body `"Not Found"`. -/
theorem nextRoute_no_match_404_witness :
    (nextRoute routesC2 ctxC2).1.status = 404 ∧
    (nextRoute routesC2 ctxC2).1.body = "Not Found" ∧
    (nextRoute routesC2 ctxC2).1.body ≠ "" :=
  nextRoute_no_match_404 routesC2 ctxC2 (by decide) (by decide)
    (fun r hr => by
      fin_cases hr <;> decide)

/-! ## C3 — chain continuation -/

/-- **C3.** `Ctx.Next`: called with an error it clears the matched route
and the parameter values, stores the error, keeps the cursor unchanged and
invokes no further handler (empty trace, scanning does not resume); called
without an error it clears the matched route and the values and resumes
the scan past the current cursor, so every subsequently invoked table
position is strictly greater than the cursor — no already-visited route is
matched again; and if the resumed scan invokes no handler the route and
values remain cleared. -/
theorem CtxNext_halt_on_error_and_resume_forward (routes : List Route) (ctx : Ctx) :
    (∀ e, CtxNext routes ctx (some e) =
      ({ ctx with Route := none, values := [], err := some e }, [])) ∧
    (∀ i : Int, i ∈ (CtxNext routes ctx none).2 → ctx.index < i) ∧
    ((CtxNext routes ctx none).2 = [] →
      (CtxNext routes ctx none).1.Route = none ∧
      (CtxNext routes ctx none).1.values = []) := by
  refine ⟨fun e => rfl, fun i hi => ?_, fun h => ?_⟩
  · have := scan_trace_lt _ _ i hi
    simpa using this
  · have := scan_trace_nil
      (routes.drop ((ctx.index + 1).toNat))
      { ctx with Route := none, values := [] } h
    simpa using this

/-- Witness for C3: on a context whose cursor already visited route 0,
`Next(err)` stores the error without resuming, and the trace of `Next()`
(which is `[1]` here) only contains positions past the cursor. -/
theorem CtxNext_halt_on_error_and_resume_forward_witness :
    CtxNext routesC3 ctxC3 (some "boom") =
      ({ ctxC3 with Route := none, values := [], err := some "boom" }, []) ∧
    ctxC3.index < 1 :=
  ⟨(CtxNext_halt_on_error_and_resume_forward routesC3 ctxC3).1 "boom",
   (CtxNext_halt_on_error_and_resume_forward routesC3 ctxC3).2.1 1 (by decide)⟩

/-! ## C4 — the auto-registration name transform -/

/-- **C4.** The name transform of `buildHands`: a method named exactly
`Get` registers `GET` at the bare prefix (`GET /` for the empty prefix),
`GetUserInfo` under prefix `/api` registers `GET /api/user/info`,
`PostParam` registers `POST` at `/:param` joined under the prefix — a
required parameter (`Pattern = [req]`) — and `PutParams` registers `PUT`
at `/:param?` joined under the prefix — an optional parameter
(`Pattern = [opt]`). -/
theorem buildHands_name_transform :
    buildHandRoute "" "Get" = some ("GET", "/") ∧
    buildHandRoute "/api" "Get" = some ("GET", "/api") ∧
    buildHandRoute "/api" "GetUserInfo" = some ("GET", "/api/user/info") ∧
    buildHandRoute "" "PostParam" = some ("POST", "/:param") ∧
    buildHandRoute "/api" "PostParam" = some ("POST", "/api/:param") ∧
    (pushRoute "POST" "/:param").Params = ["param"] ∧
    (pushRoute "POST" "/:param").Pattern = [RElem.req] ∧
    buildHandRoute "" "PutParams" = some ("PUT", "/:param?") ∧
    buildHandRoute "/api" "PutParams" = some ("PUT", "/api/:param?") ∧
    (pushRoute "PUT" "/:param?").Params = ["param"] ∧
    (pushRoute "PUT" "/:param?").Pattern = [RElem.opt] := by
  decide

/-! ## C8 — context pool round trip -/

/-- **C8.** `releaseCtx` clears the matched route, the parameter values,
the transport-handle reference and the error; a context re-acquired from
the pool for a new request carries none of them from the prior request,
holds the new request's handle, and has its cursor reset to `-1`. -/
theorem pool_roundtrip_no_residual_state (c : Ctx) (r : Req) :
    (releaseCtx c).Route = none ∧ (releaseCtx c).values = [] ∧
    (releaseCtx c).reqHandle = none ∧ (releaseCtx c).err = none ∧
    (assignCtx (releaseCtx c) r).Route = none ∧
    (assignCtx (releaseCtx c) r).values = [] ∧
    (assignCtx (releaseCtx c) r).err = none ∧
    (assignCtx (releaseCtx c) r).index = -1 ∧
    (assignCtx (releaseCtx c) r).reqHandle = some r.id := by
  simp [assignCtx, releaseCtx]

/-! ## C9 — `Ctx.Params` lookup -/

/-- Counterexample to **C9** as stated: on a context with a matched route
whose parameter list contains `id` but whose extracted-value sequence is
empty, `Ctx.Params "id"` does not return a string at all — `c.values[i]`
faults (index out of range), modelled by `none`; in particular it does not
return the empty string. -/
theorem CtxParams_panics_counterexample :
    ctxC9.Route.isSome = true ∧ rdC9.Params = ["id"] ∧
    CtxParams ctxC9 "id" = none ∧ ¬ CtxParams ctxC9 "id" = some "" := by
  decide

theorem paramsLoop_not_mem (params values : List String) (vi : Nat) (k : String)
    (h : k ∉ params) : paramsLoop params values vi k = some "" := by
  induction params generalizing vi with
  | nil => rfl
  | cons p ps ih =>
    have hp : ¬ p = k := fun hk => h (hk ▸ List.mem_cons_self p ps)
    simp only [paramsLoop, hp, if_false]
    exact ih _ (fun hk => h (List.mem_cons_of_mem p hk))

theorem paramsLoop_mem (params values : List String) (vi : Nat) (k : String)
    (h : k ∈ params) :
    paramsLoop params values vi k = values.get? (vi + params.indexOf k) := by
  induction params generalizing vi with
  | nil => exact absurd h (List.not_mem_nil k)
  | cons p ps ih =>
    by_cases hp : p = k
    · simp [paramsLoop, hp, List.indexOf_cons_self]
    · have hk : k ∈ ps := by
        rcases List.mem_cons.1 h with h' | h'
        · exact absurd h'.symm hp
        · exact h'
      have hidx : (p :: ps).indexOf k = ps.indexOf k + 1 := by
        simp [List.indexOf_cons, hp]
      simp only [paramsLoop, hp, if_false]
      rw [ih _ hk, hidx]
      congr 1
      omega

/-- **C9 amended.** For a context with a matched route, `Ctx.Params k`
returns the empty string when the route's parameter list does not contain
`k`, and the extracted value at the first position of `k` in the parameter
list whenever that position lies within the extracted-value sequence; when
it lies beyond the sequence (as for a middleware route matched by path
prefix, which extracts no values) the lookup faults instead of returning. -/
theorem CtxParams_lookup_amended (c : Ctx) (rd : RouteData) (k : String)
    (hroute : c.Route = some rd) :
    (k ∉ rd.Params → CtxParams c k = some "") ∧
    (k ∈ rd.Params → CtxParams c k = c.values.get? (rd.Params.indexOf k)) := by
  constructor
  · intro hk
    simp only [CtxParams, hroute]
    exact paramsLoop_not_mem _ _ _ _ hk
  · intro hk
    simp only [CtxParams, hroute]
    rw [paramsLoop_mem _ _ _ _ hk]
    simp

/-- Witness for the amended C9: a matched `GET /u/:param` route with value
`"42"` yields `Params "param" = "42"` and `Params "zzz" = ""`. -/
theorem CtxParams_lookup_amended_witness :
    CtxParams ctxC9w "param" = ctxC9w.values.get? (rdC9w.Params.indexOf "param") ∧
    CtxParams ctxC9w "zzz" = some "" :=
  ⟨(CtxParams_lookup_amended ctxC9w rdC9w "param" rfl).2 (by decide),
   (CtxParams_lookup_amended ctxC9w rdC9w "zzz" rfl).1 (by decide)⟩

/-! ## C10 — `Send` overwrites, `Write` appends -/

theorem empty_append_str (s : String) : "" ++ s = s := by
  cases s
  rfl

/-- **C10.** `Ctx.Send` with at least one argument first clears the
response body and then appends its arguments, so two successive `Send`s
leave exactly the rendering of the second one's argument (last `Send`
wins), while `Ctx.Write` appends its argument to whatever body is already
present. -/
theorem send_overwrites_write_appends (c : Ctx) (a b : BodyArg) :
    (CtxSend (CtxSend c [a]) [b]).body = renderArg b ∧
    (CtxWrite c [b]).body = c.body ++ renderArg b := by
  constructor
  · simp [CtxSend, CtxWrite, empty_append_str]
  · simp [CtxWrite]

/-! ## Matching lemmas for compiled patterns (towards C5 and C6) -/

/-- A metacharacter-free spliced literal parses into once-quantified
character atoms and therefore consumes exactly its own text. -/
theorem plainChar_spec (c : Char) (h : plainChar c = true) :
    ¬ c = '.' ∧ ¬ c = '+' ∧ ¬ c = '*' ∧ ¬ c = '?' := by
  simp [plainChar] at h
  tauto

theorem matchPieces_plain (k : List Char → Option (List (List Char)))
    (l u : List Char) (hl : ∀ c ∈ l, plainChar c = true) :
    matchPieces k (parseLit l) (l ++ u) = k u := by
  induction l with
  | nil => rfl
  | cons c cs ih =>
    have hc := plainChar_spec c (hl c (List.mem_cons_self c cs))
    have step : parseLit (c :: cs) = ⟨LAtom.ch c, LQuant.once⟩ :: parseLit cs := by
      cases cs with
      | nil => simp [parseLit, hc.1]
      | cons q cs' =>
        have hq := plainChar_spec q
          (hl q (List.mem_cons_of_mem c (List.mem_cons_self q cs')))
        simp [parseLit, hc.1, hq.2.1, hq.2.2.1, hq.2.2.2]
    rw [step]
    show matchPieces k (⟨LAtom.ch c, LQuant.once⟩ :: parseLit cs) (c :: (cs ++ u)) = k u
    simp only [matchPieces, atomMatches, beq_self_eq_true, if_true]
    exact ih (fun x hx => hl x (List.mem_cons_of_mem c hx))

/-- A metacharacter-free literal fragment consumes exactly its own text. -/
theorem mElems_lit_step (l : List Char) (es : List RElem) (u : List Char)
    (hl : ∀ c ∈ l, plainChar c = true) :
    mElems (RElem.lit l :: es) (l ++ u) = mElems es u := by
  show matchPieces (mElems es) (parseLit l) (l ++ u) = mElems es u
  exact matchPieces_plain (mElems es) l u hl

/-- Metacharacter-free literal fragments consume exactly their own
text. -/
theorem mElems_lits (segs : List (List Char)) (tail : List RElem) (s : List Char)
    (hplain : ∀ sg ∈ segs, ∀ c ∈ sg, plainChar c = true) :
    mElems (segs.map (fun sg => RElem.lit ('/' :: sg)) ++ tail) (flatSegs segs ++ s)
      = mElems tail s := by
  induction segs with
  | nil => simp [flatSegs]
  | cons sg rest ih =>
    show mElems (RElem.lit ('/' :: sg) :: (rest.map (fun sg => RElem.lit ('/' :: sg)) ++ tail))
        ((('/' :: sg) ++ flatSegs rest) ++ s) = mElems tail s
    rw [List.append_assoc, mElems_lit_step _ _ _ ?pl]
    · exact ih (fun t ht => hplain t (List.mem_cons_of_mem sg ht))
    case pl =>
      intro c hcm
      rcases List.mem_cons.1 hcm with h | h
      · subst h; decide
      · exact hplain sg (List.mem_cons_self sg rest) c h

/-- The lazy `([^/]+?)` at the end of a pattern captures the whole
remaining slash-free text. -/
theorem firstLazy_all (v : List Char) (acc : List Char)
    (hne : v ≠ []) (hns : ∀ c ∈ v, c ≠ '/') :
    firstLazy (mElems []) acc v = some [acc ++ v] := by
  induction v generalizing acc with
  | nil => exact absurd rfl hne
  | cons c v' ih =>
    have hc : ¬ c = '/' := hns c (List.mem_cons_self c v')
    simp only [firstLazy, hc, if_false]
    cases v' with
    | nil => rfl
    | cons d v'' =>
      have hrest : mElems [] (d :: v'') = none := by
        have hd : ¬ d = '/' := hns d (List.mem_cons_of_mem c (List.mem_cons_self d v''))
        simp [mElems, hd]
      rw [hrest]
      rw [ih (acc ++ [c]) (by simp)
        (fun x hx => hns x (List.mem_cons_of_mem c hx))]
      simp

theorem mElems_opt_present (v : List Char) (hne : v ≠ []) (hns : ∀ c ∈ v, c ≠ '/') :
    mElems [RElem.opt] ('/' :: v) = some [v] := by
  have h := firstLazy_all v [] hne hns
  simp only [List.nil_append] at h
  show (match firstLazy (mElems []) [] v with
        | some caps => some caps
        | none => (mElems [] ('/' :: v)).map (fun caps => [] :: caps)) = some [v]
  rw [h]

theorem mElems_opt_absent : mElems [RElem.opt] [] = some [[]] := rfl

theorem mElems_req_absent : mElems [RElem.req] [] = none := rfl

theorem mElems_req_slash : mElems [RElem.req] ['/'] = none := rfl

/-- The greedy `(.*)` at the end of a pattern captures the whole remaining
text. -/
theorem tryGreedy_full (s : List Char) :
    tryGreedy (mElems []) s s.length = some [s] := by
  cases hs : s.length with
  | zero =>
    have h0 : s = [] := List.eq_nil_of_length_eq_zero hs
    subst h0; rfl
  | succ n =>
    simp only [tryGreedy]
    rw [show s.drop (n + 1) = [] from by rw [← hs]; exact List.drop_length s]
    rw [show s.take (n + 1) = s from by rw [← hs]; exact List.take_length s]
    rfl

theorem mElems_wild_full (s : List Char) :
    mElems [RElem.wild] ('/' :: s) = some [s] := by
  show tryGreedy (mElems []) s s.length = some [s]
  exact tryGreedy_full s

/-- Evaluation of `matchRoute` on a regex route whose pattern matches with
a non-empty capture list. -/
theorem matchRoute_regex_match (r : RouteData) (m path : String)
    (g1 : r.isMiddleware = false) (g2 : r.Method = m) (g3 : r.isStar = false)
    (g4 : r.isSlash = false) (g5 : r.isRegex = true)
    (caps : List (List Char))
    (hm : mElems r.Pattern path.data = some caps) (hcaps : caps ≠ [])
    (hp : r.Params ≠ []) :
    matchRoute r m path = (true, caps.map String.mk) := by
  have hlen : (r.Params.length > 0) = True := by
    simp [List.length_pos, hp]
  have hclen : (caps.length > 0) = True := by
    simp [List.length_pos, hcaps]
  simp [matchRoute, g1, g2, g3, g4, g5, hm, hlen, hclen]

/-- Evaluation of `matchRoute` on a regex route whose pattern does not
match and whose normalized path differs from the request path. -/
theorem matchRoute_regex_nomatch (r : RouteData) (m path : String)
    (g1 : r.isMiddleware = false) (g2 : r.Method = m) (g3 : r.isStar = false)
    (g4 : r.isSlash = false) (g5 : r.isRegex = true)
    (hm : mElems r.Pattern path.data = none)
    (hpath : r.Path ≠ path) :
    matchRoute r m path = (false, []) := by
  simp [matchRoute, g1, g2, g3, g4, g5, hm, hpath]

/-! ## C5 — optional vs required parameter segments -/

/-- Counterexample to **C5** as stated: a literal segment is spliced into
the pattern verbatim, so a regex metacharacter in it acts as an operator.
The route `GET /a+/:id?` registers (one optional named parameter `id`;
its pattern compiles — shown below as the exact pattern string the source
builds), yet it matches *neither* `/a+/42` (value present: `a+` can only
consume letters `a`, never the literal `+`) *nor* `/a+` (segment absent),
so a route compiled with a single optional named parameter segment can
fail to match both forms. -/
theorem optional_metachar_route_counterexample :
    (pushRoute "GET" "/a+/:id?").Params = ["id"] ∧
    getRegexPattern "/a+/:id?" = "^/a+(?:/([^/]+?))?/?$" ∧
    (matchRoute (pushRoute "GET" "/a+/:id?") "GET" "/a+/42").1 = false ∧
    (matchRoute (pushRoute "GET" "/a+/:id?") "GET" "/a+").1 = false ∧
    (matchRoute (pushRoute "GET" "/a+/:id?") "GET" "/aaa/42")
      = (true, ["42"]) := by
  decide

/-- **C5 amended.** For routes whose literal segments contain no regex
metacharacters: a route compiled from such literal segments followed by a
single optional named parameter segment (`Pattern = literals ++ [opt]`,
one parameter name) matches both when the request path carries a value
for the segment and when the segment is absent; a route compiled with a
required parameter segment instead (`Pattern = literals ++ [req]`) never
matches a request path from which that segment is absent (the bare mount,
with or without a trailing slash).  A metacharacter in a literal segment
is spliced into the pattern verbatim and acts as a regex operator, so
such routes match differently (see the counterexample above) and are
excluded. -/
theorem optional_matches_required_rejects_absent
    (m name : String) (segs : List (List Char)) (v : List Char)
    (ropt rreq : RouteData)
    (o1 : ropt.isMiddleware = false) (o2 : ropt.Method = m)
    (o3 : ropt.isStar = false) (o4 : ropt.isSlash = false)
    (o5 : ropt.isRegex = true) (o6 : ropt.Params = [name])
    (o7 : ropt.Pattern = segs.map (fun sg => RElem.lit ('/' :: sg)) ++ [RElem.opt])
    (q1 : rreq.isMiddleware = false) (q2 : rreq.Method = m)
    (q3 : rreq.isStar = false) (q4 : rreq.isSlash = false)
    (q5 : rreq.isRegex = true) (q6 : rreq.Params = [name])
    (q7 : rreq.Pattern = segs.map (fun sg => RElem.lit ('/' :: sg)) ++ [RElem.req])
    (hv : v ≠ []) (hvs : ∀ c ∈ v, c ≠ '/')
    (hp1 : rreq.Path ≠ String.mk (flatSegs segs))
    (hp2 : rreq.Path ≠ String.mk (flatSegs segs ++ ['/']))
    (hplain : ∀ sg ∈ segs, ∀ c ∈ sg, plainChar c = true) :
    (matchRoute ropt m (String.mk (flatSegs segs ++ '/' :: v))).1 = true ∧
    (matchRoute ropt m (String.mk (flatSegs segs))).1 = true ∧
    (matchRoute rreq m (String.mk (flatSegs segs))).1 = false ∧
    (matchRoute rreq m (String.mk (flatSegs segs ++ ['/']))).1 = false := by
  refine ⟨?_, ?_, ?_, ?_⟩
  · have hm : mElems ropt.Pattern (String.mk (flatSegs segs ++ '/' :: v)).data
        = some [v] := by
      rw [o7]
      show mElems _ (flatSegs segs ++ '/' :: v) = _
      rw [mElems_lits _ _ _ hplain]
      exact mElems_opt_present v hv hvs
    rw [matchRoute_regex_match ropt m _ o1 o2 o3 o4 o5 [v] hm (by simp)
      (by rw [o6]; simp)]
  · have hm : mElems ropt.Pattern (String.mk (flatSegs segs)).data
        = some [[]] := by
      rw [o7]
      show mElems _ (flatSegs segs) = _
      rw [show flatSegs segs = flatSegs segs ++ [] from (List.append_nil _).symm,
        mElems_lits _ _ _ hplain]
      exact mElems_opt_absent
    rw [matchRoute_regex_match ropt m _ o1 o2 o3 o4 o5 [[]] hm (by simp)
      (by rw [o6]; simp)]
  · have hm : mElems rreq.Pattern (String.mk (flatSegs segs)).data = none := by
      rw [q7]
      show mElems _ (flatSegs segs) = _
      rw [show flatSegs segs = flatSegs segs ++ [] from (List.append_nil _).symm,
        mElems_lits _ _ _ hplain]
      exact mElems_req_absent
    rw [matchRoute_regex_nomatch rreq m _ q1 q2 q3 q4 q5 hm hp1]
  · have hm : mElems rreq.Pattern (String.mk (flatSegs segs ++ ['/'])).data = none := by
      rw [q7]
      show mElems _ (flatSegs segs ++ ['/']) = _
      rw [mElems_lits _ _ _ hplain]
      exact mElems_req_slash
    rw [matchRoute_regex_nomatch rreq m _ q1 q2 q3 q4 q5 hm hp2]

/-- Witness for C5: the optional route `GET /a/:id?` matches `/a/42` and
`/a`; the required route `GET /a/:id` matches neither `/a` nor `/a/`. -/
theorem optional_matches_required_rejects_absent_witness :
    (matchRoute (pushRoute "GET" "/a/:id?") "GET"
      (String.mk (flatSegs [['a']] ++ '/' :: "42".data))).1 = true ∧
    (matchRoute (pushRoute "GET" "/a/:id?") "GET"
      (String.mk (flatSegs [['a']]))).1 = true ∧
    (matchRoute (pushRoute "GET" "/a/:id") "GET"
      (String.mk (flatSegs [['a']]))).1 = false ∧
    (matchRoute (pushRoute "GET" "/a/:id") "GET"
      (String.mk (flatSegs [['a']] ++ ['/']))).1 = false :=
  optional_matches_required_rejects_absent "GET" "id" [['a']] "42".data
    (pushRoute "GET" "/a/:id?") (pushRoute "GET" "/a/:id")
    (by decide) (by decide) (by decide) (by decide) (by decide) (by decide)
    (by decide)
    (by decide) (by decide) (by decide) (by decide) (by decide) (by decide)
    (by decide)
    (by decide) (by decide) (by decide) (by decide) (by decide)

/-! ## C6 — wildcard routes -/

/-- Counterexample to **C6** as stated: the non-middleware route registered
with path exactly `/*` has `isStar` set, so `matchRoute` answers before the
compiled pattern runs: it does match every path, but it extracts *no*
values — there is no extracted value positionally aligned with its `"*"`
parameter name (position 0 of the value list is empty), so the captured
text does not equal the request path after the mount prefix. -/
theorem wildcard_star_extracts_nothing_counterexample :
    (pushRoute "GET" "/*").Params = ["*"] ∧
    matchRoute (pushRoute "GET" "/*") "GET" "/a/b" = (true, []) ∧
    (matchRoute (pushRoute "GET" "/*") "GET" "/a/b").2.get? 0 = none := by
  decide

/-- **C6 amended.** A non-middleware route with path exactly `/*`
(`isStar`) matches every method-eligible request path but extracts no
parameter values; for a wildcard route mounted under a
metacharacter-free literal prefix (`Pattern = literals ++ [wild]`,
parameter list `["*"]`) the extracted value aligned with `"*"` equals
exactly the request path text after the mount prefix.  (A regex
metacharacter in the mount is spliced verbatim and acts as an operator,
so such mounts match differently and are excluded.) -/
theorem wildcard_match_amended (m path : String) (rstar r : RouteData)
    (segs : List (List Char)) (s : List Char)
    (h1 : rstar.isMiddleware = false) (h2 : rstar.Method = m)
    (h3 : rstar.isStar = true)
    (g1 : r.isMiddleware = false) (g2 : r.Method = m) (g3 : r.isStar = false)
    (g4 : r.isSlash = false) (g5 : r.isRegex = true)
    (g6 : r.Params = [String.mk ['*']])
    (g7 : r.Pattern = segs.map (fun sg => RElem.lit ('/' :: sg)) ++ [RElem.wild])
    (hplain : ∀ sg ∈ segs, ∀ c ∈ sg, plainChar c = true) :
    matchRoute rstar m path = (true, []) ∧
    matchRoute r m (String.mk (flatSegs segs ++ '/' :: s)) = (true, [String.mk s]) := by
  constructor
  · simp [matchRoute, h1, h2, h3]
  · have hm : mElems r.Pattern (String.mk (flatSegs segs ++ '/' :: s)).data
        = some [s] := by
      rw [g7]
      show mElems _ (flatSegs segs ++ '/' :: s) = _
      rw [mElems_lits _ _ _ hplain]
      exact mElems_wild_full s
    rw [matchRoute_regex_match r m _ g1 g2 g3 g4 g5 [s] hm (by simp)
      (by rw [g6]; simp)]
    rfl

/-- Witness for the amended C6: `GET /*` matches `/any/path` with no
values; `GET /mnt/*` on `/mnt/a/b` captures exactly `"a/b"`. -/
theorem wildcard_match_amended_witness :
    matchRoute (pushRoute "GET" "/*") "GET" "/any/path" = (true, []) ∧
    matchRoute (pushRoute "GET" "/mnt/*") "GET"
      (String.mk (flatSegs [['m', 'n', 't']] ++ '/' :: "a/b".data))
      = (true, [String.mk "a/b".data]) :=
  wildcard_match_amended "GET" "/any/path"
    (pushRoute "GET" "/*") (pushRoute "GET" "/mnt/*")
    [['m', 'n', 't']] "a/b".data
    (by decide) (by decide) (by decide)
    (by decide) (by decide) (by decide) (by decide) (by decide) (by decide)
    (by decide) (by decide)

/-! ## C7 — parameter names versus capturing groups -/

/-- Counterexample to **C7** as stated: the registered route `GET /x*y`
has a segment containing `*` in a non-leading position, so `getParams`
records the parameter name `"*"` (one name) while `getRegex` treats the
segment as a literal and emits the pattern `^/x*y/?$` with zero capturing
groups: the lengths differ. -/
theorem params_groups_counterexample :
    (pushRoute "GET" "/x*y").Params.length = 1 ∧
    getRegexPattern "/x*y" = "^/x*y/?$" ∧
    countCaptureGroups (getRegexPattern "/x*y").data = 0 ∧
    ¬ ((pushRoute "GET" "/x*y").Params.length
        = countCaptureGroups (getRegexPattern "/x*y").data) := by
  decide

theorem ccg_skip (l rest : List Char) (h : '(' ∉ l) :
    countCaptureGroups (l ++ rest) = countCaptureGroups rest := by
  induction l with
  | nil => rfl
  | cons c l' ih =>
    have hc : ¬ c = '(' := fun hc => h (hc ▸ List.mem_cons_self c l')
    simp only [List.cons_append, countCaptureGroups, hc, if_false]
    exact ih (fun hm => h (List.mem_cons_of_mem c hm))

theorem ccg_opt (rest : List Char) :
    countCaptureGroups (renderElem RElem.opt ++ rest) = 1 + countCaptureGroups rest := by
  simp [renderElem, countCaptureGroups]

theorem ccg_req (rest : List Char) :
    countCaptureGroups (renderElem RElem.req ++ rest) = 1 + countCaptureGroups rest := by
  simp [renderElem, countCaptureGroups]

theorem ccg_wild (rest : List Char) :
    countCaptureGroups (renderElem RElem.wild ++ rest) = 1 + countCaptureGroups rest := by
  simp [renderElem, countCaptureGroups]

/-- Group counting distributes over a fragment list whose literals are
`(`-free. -/
theorem ccg_elems (elems : List RElem) (rest : List Char)
    (hlit : ∀ l, RElem.lit l ∈ elems → '(' ∉ l) :
    countCaptureGroups ((elems.map renderElem).flatten ++ rest)
      = (elems.map groupCountElem).sum + countCaptureGroups rest := by
  induction elems with
  | nil => simp
  | cons e es ih =>
    simp only [List.map_cons, List.flatten_cons, List.sum_cons]
    rw [List.append_assoc]
    have ihes := ih (fun l hl => hlit l (List.mem_cons_of_mem e hl))
    cases e with
    | lit l =>
      rw [show renderElem (RElem.lit l) = l from rfl,
        ccg_skip l _ (hlit l (List.mem_cons_self _ es)), ihes]
      simp [groupCountElem]
    | opt => rw [ccg_opt, ihes]; simp [groupCountElem]; omega
    | req => rw [ccg_req, ihes]; simp [groupCountElem]; omega
    | wild => rw [ccg_wild, ihes]; simp [groupCountElem]; omega

/-- One segment of the compiler: under the amended side conditions, the
parameter names and the capturing groups it contributes agree in number. -/
theorem seg_params_groups (sg : List Char)
    (h1 : '*' ∈ sg → sg.headD ' ' = '*') :
    (paramsOfSeg sg).length = ((regexElemOfSeg sg).map groupCountElem).sum := by
  cases sg with
  | nil => rfl
  | cons c cs =>
    by_cases hs : c = '*'
    · subst hs
      have hstar : (('*' :: cs).contains '*') = true := by simp
      have hc : ¬ ('*' : Char) = ':' := by decide
      simp [paramsOfSeg, regexElemOfSeg, hc, hstar, groupCountElem]
    · have hm : '*' ∉ (c :: cs) := by
        intro hmem
        have hh := h1 hmem
        simp only [List.headD_cons] at hh
        exact hs hh
      have h2 : '*' ∉ cs := fun hx => hm (List.mem_cons_of_mem _ hx)
      by_cases hc : c = ':'
      · subst hc
        simp [paramsOfSeg, regexElemOfSeg, h2, groupCountElem]
        split <;> simp [groupCountElem]
      · simp [paramsOfSeg, regexElemOfSeg, hc, hs, groupCountElem]
        exact ⟨fun hx => hs hx.symm, h2⟩

theorem segs_params_groups (segs : List (List Char))
    (h : ∀ sg ∈ segs, '*' ∈ sg → sg.headD ' ' = '*') :
    ((segs.map paramsOfSeg).flatten).length
      = (((segs.map regexElemOfSeg).flatten).map groupCountElem).sum := by
  induction segs with
  | nil => rfl
  | cons sg rest ih =>
    simp only [List.map_cons, List.flatten_cons, List.length_append,
      List.map_append, List.sum_append]
    rw [seg_params_groups sg (h sg (List.mem_cons_self sg rest)),
      ih (fun s hs => h s (List.mem_cons_of_mem sg hs))]

/-- A literal fragment always originates from a non-parameter segment and
carries that segment's characters after a leading `/`. -/
theorem lit_mem_regexElemOfSeg (sg l : List Char)
    (hm : RElem.lit l ∈ regexElemOfSeg sg) (hp : '(' ∉ sg) : '(' ∉ l := by
  cases sg with
  | nil => simp [regexElemOfSeg] at hm
  | cons c cs =>
    by_cases hc : c = ':'
    · simp only [regexElemOfSeg, hc, if_true, if_pos] at hm
      split at hm <;> simp at hm
    · by_cases hs : c = '*'
      · simp [regexElemOfSeg, hc, hs] at hm
      · simp [regexElemOfSeg, hc, hs] at hm
        subst hm
        intro hmem
        rcases List.mem_cons.1 hmem with h' | h'
        · exact absurd h'.symm (by decide)
        · exact hp h'

/-- **C7 amended.** For every route path in which each segment containing
`*` has it as the segment's first character, and no segment contains `(`
(a `(` in a literal segment would itself change the group count or make
compilation fail), the length of the extracted parameter-name list equals
the number of capturing groups of the compiled pattern string. -/
theorem params_align_groups_amended (p : String)
    (h : ∀ sg ∈ splitOnChar '/' p.data,
      ('*' ∈ sg → sg.headD ' ' = '*') ∧ '(' ∉ sg) :
    (getParams p).length = countCaptureGroups (getRegexPattern p).data := by
  by_cases hp : p.length < 1
  · have hdata : p.data = [] := by
      cases p with
      | mk d =>
        simp [String.length] at hp
        simpa using hp
    cases p with
    | mk d =>
      simp at hdata
      subst hdata
      decide
  · have h1 : getParams p = ((splitOnChar '/' p.data).map paramsOfSeg).flatten := by
      simp [getParams, hp]
    have h2 : (getRegexPattern p).data
        = '^' :: (((getRegexElems p).map renderElem).flatten ++ ['/', '?', '$']) := by
      simp [getRegexPattern]
    rw [h1, h2]
    have hhat : ¬ ('^' : Char) = '(' := by decide
    simp only [countCaptureGroups, hhat, if_false]
    rw [ccg_elems _ _ (fun l hl => by
      have hex : ∃ sg ∈ splitOnChar '/' p.data, RElem.lit l ∈ regexElemOfSeg sg := by
        simpa [getRegexElems] using hl
      rcases hex with ⟨sg, hsg, hmem⟩
      exact lit_mem_regexElemOfSeg sg l hmem (h sg hsg).2)]
    rw [show countCaptureGroups ['/', '?', '$'] = 0 from rfl]
    rw [show getRegexElems p = ((splitOnChar '/' p.data).map regexElemOfSeg).flatten
      from rfl]
    rw [segs_params_groups _ (fun sg hsg => (h sg hsg).1)]
    omega

/-- Witness for the amended C7: the path `/u/:id/*` (a literal segment, a
required parameter and a leading-`*` wildcard) yields two parameter names
and two capturing groups. -/
theorem params_align_groups_amended_witness :
    (getParams "/u/:id/*").length
      = countCaptureGroups (getRegexPattern "/u/:id/*").data :=
  params_align_groups_amended "/u/:id/*" (by decide)

end Web

